import Mathlib

/-!
# Verification of the scatter core of a CUDA path tracer

Shallow embedding of `src/interactions.h` (the functions
`calculateRandomDirectionInHemisphere` and `scatterRay`) over the reals,
together with proofs of the specified properties.

`glm::vec3` becomes `Vec3` with real components; the thrust random engine
with its `uniform_real_distribution` becomes an explicit stream of draws
(`Rng`), each call to `u01(rng)` consuming the next element of the stream;
in-place mutation of the `PathSegment` becomes a function returning the
updated segment together with the advanced generator.  The record types
(`PathSegment`, `Material`, `ShadeableIntersection`, `Geom`, `Camera`) are
declared in a header outside the shading core; their fields are modelled
from the spec's data model (§3) restricted to the fields the core reads.
-/

namespace PathTracer

/-- Real-valued 3-component vector, embedding `glm::vec3`. -/
structure Vec3 where
  x : ℝ
  y : ℝ
  z : ℝ

/-- Componentwise addition (`glm` vector `+`). -/
def vadd (a b : Vec3) : Vec3 := ⟨a.x + b.x, a.y + b.y, a.z + b.z⟩

/-- Componentwise subtraction (`glm` vector `-`). -/
def vsub (a b : Vec3) : Vec3 := ⟨a.x - b.x, a.y - b.y, a.z - b.z⟩

/-- Componentwise (Hadamard) product (`glm` vector `*` vector). -/
def vmul (a b : Vec3) : Vec3 := ⟨a.x * b.x, a.y * b.y, a.z * b.z⟩

/-- Scalar multiplication (`glm` scalar `*` vector). -/
def smul (s : ℝ) (v : Vec3) : Vec3 := ⟨s * v.x, s * v.y, s * v.z⟩

/-- Vector negation (unary `-`). -/
def vneg (v : Vec3) : Vec3 := ⟨-v.x, -v.y, -v.z⟩

/-- `glm::dot`. -/
def dot (a b : Vec3) : ℝ := a.x * b.x + a.y * b.y + a.z * b.z

/-- `glm::cross`. -/
def cross (a b : Vec3) : Vec3 :=
  ⟨a.y * b.z - a.z * b.y, a.z * b.x - a.x * b.z, a.x * b.y - a.y * b.x⟩

/-- `glm::length`. -/
noncomputable def vlen (v : Vec3) : ℝ := Real.sqrt (dot v v)

/-- `glm::normalize`: the vector divided by its length. -/
noncomputable def normalize (v : Vec3) : Vec3 := smul (1 / vlen v) v

/-- `glm::reflect(I, N) = I - 2 * dot(N, I) * N`. -/
def reflect (i n : Vec3) : Vec3 := vsub i (smul (2 * dot n i) n)

/-- The random engine: an explicit stream of uniform draws together with a
read position.  `thrust::default_random_engine` with
`uniform_real_distribution<float> u01(0, 1)`: each `u01(rng)` call reads
`stream pos` and advances `pos`. -/
structure Rng where
  stream : ℕ → ℝ
  pos : ℕ

/-- One draw `u01(rng)`: the value read and the advanced engine. -/
def Rng.next (g : Rng) : ℝ × Rng := (g.stream g.pos, ⟨g.stream, g.pos + 1⟩)

/-- A ray: origin and direction. -/
structure Ray where
  origin : Vec3
  direction : Vec3

/-- The in-flight path record (spec §3 `PathState`): current ray,
last computed color, accumulated throughput, remaining bounce budget. -/
structure PathSegment where
  ray : Ray
  color : Vec3
  throughput : Vec3
  remainingBounces : ℤ

/-- Specular sub-record of a material: exponent and color. -/
structure SpecularProps where
  exponent : ℝ
  color : Vec3

/-- Material record, restricted to the fields the scatter core reads:
base (diffuse) color, specular properties, reflectivity probability. -/
structure Material where
  color : Vec3
  specular : SpecularProps
  hasReflective : ℝ

/-- Intersection record, restricted to the fields the core reads. -/
structure ShadeableIntersection where
  surfaceNormal : Vec3
  intersectPos : Vec3

/-- Geometry record, restricted to the field the core reads. -/
structure Geom where
  translation : Vec3

/-- Camera record (passed to `scatterRay` but never read by it). -/
structure Camera where
  position : Vec3

/-- The C cast `(int)` applied to a non-negative float truncates toward
zero; on negative input it truncates toward zero as well (not floor). -/
noncomputable def truncToInt (x : ℝ) : ℤ := if 0 ≤ x then ⌊x⌋ else -⌊-x⌋

/-- Light selection as performed at `interactions.h:94-95`:
`rL = u01(rng) * lightsNum; randLight = (int)rL`. -/
noncomputable def selectLightIndex (u : ℝ) (lightsNum : ℤ) : ℤ :=
  truncToInt (u * (lightsNum : ℝ))

/-- `calculateRandomDirectionInHemisphere` (`interactions.h:10-42`):
cosine-weighted random direction in the hemisphere above `normal`.
Consumes two draws; returns the direction and the advanced engine.
`SQRT_OF_ONE_THIRD` is `√(1/3)` and `TWO_PI` is `2π`. -/
noncomputable def calculateRandomDirectionInHemisphere (normal : Vec3) (g : Rng) :
    Vec3 × Rng :=
  let up := Real.sqrt (Rng.next g).1
  let g1 := (Rng.next g).2
  let over := Real.sqrt (1 - up * up)
  let around := (Rng.next g1).1 * (2 * Real.pi)
  let g2 := (Rng.next g1).2
  let directionNotNormal : Vec3 :=
    if |normal.x| < Real.sqrt (1 / 3) then ⟨1, 0, 0⟩
    else if |normal.y| < Real.sqrt (1 / 3) then ⟨0, 1, 0⟩
    else ⟨0, 0, 1⟩
  let perpendicularDirection1 := normalize (cross normal directionNotNormal)
  let perpendicularDirection2 := normalize (cross normal perpendicularDirection1)
  (vadd (vadd (smul up normal)
      (smul (Real.cos around * over) perpendicularDirection1))
      (smul (Real.sin around * over) perpendicularDirection2), g2)

/-- `scatterRay` (`interactions.h:69-128`), the active (uncommented)
variant.  The light-index and geometry arrays are modelled as total maps
(raw-pointer reads); the `Camera` and `materials` parameters are kept in
the signature because the source takes them, though its body never reads
them.  Dead stores of the source (`wi`, and the two `color` values that
are immediately reassigned at lines 107 and 117) are kept as unused
bindings.  Returns the updated path segment and the advanced engine. -/
noncomputable def scatterRay (cam : Camera) (g : Rng) (pathSegment : PathSegment)
    (intersection : ShadeableIntersection) (mat : Material)
    (lights : ℤ → ℤ) (lightsNum : ℤ) (geoms : ℤ → Geom)
    (materials : ℤ → Material) : PathSegment × Rng :=
  let normal := intersection.surfaceNormal
  let wi := vneg pathSegment.ray.direction
  let ps0 : PathSegment :=
    { pathSegment with ray := { pathSegment.ray with origin := intersection.intersectPos } }
  let randMat := (Rng.next g).1
  let g1 := (Rng.next g).2
  let rL := (Rng.next g1).1 * (lightsNum : ℝ)
  let g2 := (Rng.next g1).2
  let randLight := truncToInt rL
  let L := normalize (vsub (geoms (lights randLight)).translation ps0.ray.origin)
  if randMat ≤ mat.hasReflective then
    let r := reflect ps0.ray.direction normal
    let v := normalize intersection.intersectPos
    let colorDead := smul
      (mat.hasReflective * Real.rpow (dot r v) mat.specular.exponent / mat.hasReflective)
      (vmul ⟨1, 1, 1⟩ mat.specular.color)
    let color := mat.specular.color
    let ps1 : PathSegment := { ps0 with ray := { ps0.ray with direction := r } }
    ({ ps1 with color := color, remainingBounces := ps1.remainingBounces - 1 }, g2)
  else
    let diffuse := dot normal L
    let ambient : ℝ := 0.2
    let lux := diffuse + ambient
    let colorDead := smul (lux / (1 - mat.hasReflective)) (vmul ps0.throughput mat.color)
    let color := mat.color
    let tp := vmul ps0.throughput
      (smul (|dot ps0.ray.direction normal| / (2 * Real.pi)) color)
    let newDir := (calculateRandomDirectionInHemisphere normal g2).1
    let g3 := (calculateRandomDirectionInHemisphere normal g2).2
    let ps1 : PathSegment :=
      { ps0 with ray := { ps0.ray with direction := newDir }, throughput := tp }
    ({ ps1 with color := color, remainingBounces := ps1.remainingBounces - 1 }, g3)

/-! ## Vector algebra helper lemmas -/

theorem dot_self_nonneg (v : Vec3) : 0 ≤ dot v v := by
  simp only [dot]
  nlinarith [sq_nonneg v.x, sq_nonneg v.y, sq_nonneg v.z]

theorem dot_smul_left (s : ℝ) (a b : Vec3) : dot (smul s a) b = s * dot a b := by
  simp only [dot, smul]
  ring

theorem dot_smul_right (s : ℝ) (a b : Vec3) : dot a (smul s b) = s * dot a b := by
  simp only [dot, smul]
  ring

theorem dot_vadd_left (a b c : Vec3) : dot (vadd a b) c = dot a c + dot b c := by
  simp only [dot, vadd]
  ring

theorem dot_vadd_right (a b c : Vec3) : dot a (vadd b c) = dot a b + dot a c := by
  simp only [dot, vadd]
  ring

theorem dot_self_cross_left (a b : Vec3) : dot a (cross a b) = 0 := by
  simp only [dot, cross]
  ring

theorem dot_self_cross_right (a b : Vec3) : dot b (cross a b) = 0 := by
  simp only [dot, cross]
  ring

/-- Lagrange identity for the cross product. -/
theorem dot_cross_self (a b : Vec3) :
    dot (cross a b) (cross a b) = dot a a * dot b b - dot a b * dot a b := by
  simp only [dot, cross]
  ring

theorem vlen_mul_self (v : Vec3) : vlen v * vlen v = dot v v :=
  Real.mul_self_sqrt (dot_self_nonneg v)

/-- A nondegenerate vector normalizes to a unit vector. -/
theorem dot_normalize_self (v : Vec3) (h : 0 < dot v v) :
    dot (normalize v) (normalize v) = 1 := by
  have hlen : 0 < vlen v := Real.sqrt_pos.mpr h
  simp only [normalize, dot_smul_left, dot_smul_right]
  rw [show 1 / vlen v * (1 / vlen v * dot v v) = dot v v / (vlen v * vlen v) by ring,
    vlen_mul_self]
  exact div_self (ne_of_gt h)

theorem dot_normalize_right (a v : Vec3) : dot a (normalize v) = (1 / vlen v) * dot a v := by
  simp only [normalize, dot_smul_right]

theorem dot_comm (a b : Vec3) : dot a b = dot b a := by
  simp only [dot]
  ring

theorem dot_normalize_left (v a : Vec3) : dot (normalize v) a = (1 / vlen v) * dot v a := by
  simp only [normalize, dot_smul_left]

/-- Expansion of the squared length of `a•n + b•t1 + c•t2` over an
orthonormal system. -/
theorem dot_basis_self (n t1 t2 : Vec3) (a b c : ℝ)
    (hnn : dot n n = 1) (h11 : dot t1 t1 = 1) (h22 : dot t2 t2 = 1)
    (hn1 : dot n t1 = 0) (hn2 : dot n t2 = 0) (h12 : dot t1 t2 = 0) :
    dot (vadd (vadd (smul a n) (smul b t1)) (smul c t2))
      (vadd (vadd (smul a n) (smul b t1)) (smul c t2)) = a * a + b * b + c * c := by
  simp only [dot, vadd, smul] at *
  linear_combination (a * a) * hnn + (b * b) * h11 + (c * c) * h22 +
    (2 * a * b) * hn1 + (2 * a * c) * hn2 + (2 * b * c) * h12

/-- Projection of `a•n + b•t1 + c•t2` on `n` over an orthonormal system. -/
theorem dot_basis_normal (n t1 t2 : Vec3) (a b c : ℝ)
    (hnn : dot n n = 1) (hn1 : dot n t1 = 0) (hn2 : dot n t2 = 0) :
    dot (vadd (vadd (smul a n) (smul b t1)) (smul c t2)) n = a := by
  simp only [dot, vadd, smul] at *
  linear_combination a * hnn + b * hn1 + c * hn2

/-! ## Hemisphere sampler analysis -/

theorem cross_axis_pos_x (n : Vec3) (hnn : dot n n = 1) (hx : n.x * n.x < 1) :
    0 < dot (cross n ⟨1, 0, 0⟩) (cross n ⟨1, 0, 0⟩) := by
  rw [dot_cross_self]
  simp only [dot] at *
  nlinarith

theorem cross_axis_pos_y (n : Vec3) (hnn : dot n n = 1) (hy : n.y * n.y < 1) :
    0 < dot (cross n ⟨0, 1, 0⟩) (cross n ⟨0, 1, 0⟩) := by
  rw [dot_cross_self]
  simp only [dot] at *
  nlinarith

theorem cross_axis_pos_z (n : Vec3) (hnn : dot n n = 1) (hz : n.z * n.z < 1) :
    0 < dot (cross n ⟨0, 0, 1⟩) (cross n ⟨0, 0, 1⟩) := by
  rw [dot_cross_self]
  simp only [dot] at *
  nlinarith

/-- Main geometric content of the hemisphere sampler: for a unit normal
`n` and any auxiliary axis `E` not parallel to `n`, the value
`√u1 • n + (cos a · √(1-√u1·√u1)) • t1 + (sin a · √(1-√u1·√u1)) • t2`
with `t1 = normalize (n × E)` and `t2 = normalize (n × t1)` is a unit
vector whose projection on `n` is `√u1`. -/
theorem hemisphere_core (n E : Vec3) (u1 a : ℝ) (hnn : dot n n = 1)
    (hE : 0 < dot (cross n E) (cross n E)) (h0 : 0 ≤ u1) (h1 : u1 ≤ 1) :
    dot
      (vadd (vadd (smul (Real.sqrt u1) n)
        (smul (Real.cos a * Real.sqrt (1 - Real.sqrt u1 * Real.sqrt u1))
          (normalize (cross n E))))
        (smul (Real.sin a * Real.sqrt (1 - Real.sqrt u1 * Real.sqrt u1))
          (normalize (cross n (normalize (cross n E))))))
      (vadd (vadd (smul (Real.sqrt u1) n)
        (smul (Real.cos a * Real.sqrt (1 - Real.sqrt u1 * Real.sqrt u1))
          (normalize (cross n E))))
        (smul (Real.sin a * Real.sqrt (1 - Real.sqrt u1 * Real.sqrt u1))
          (normalize (cross n (normalize (cross n E)))))) = 1 ∧
    dot
      (vadd (vadd (smul (Real.sqrt u1) n)
        (smul (Real.cos a * Real.sqrt (1 - Real.sqrt u1 * Real.sqrt u1))
          (normalize (cross n E))))
        (smul (Real.sin a * Real.sqrt (1 - Real.sqrt u1 * Real.sqrt u1))
          (normalize (cross n (normalize (cross n E))))))
      n = Real.sqrt u1 := by
  have h11 : dot (normalize (cross n E)) (normalize (cross n E)) = 1 :=
    dot_normalize_self _ hE
  have hn1 : dot n (normalize (cross n E)) = 0 := by
    rw [dot_normalize_right, dot_self_cross_left, mul_zero]
  have hc2 : dot (cross n (normalize (cross n E))) (cross n (normalize (cross n E))) = 1 := by
    rw [dot_cross_self, hnn, h11, hn1]
    ring
  have h22 : dot (normalize (cross n (normalize (cross n E))))
      (normalize (cross n (normalize (cross n E)))) = 1 :=
    dot_normalize_self _ (by rw [hc2]; norm_num)
  have hn2 : dot n (normalize (cross n (normalize (cross n E)))) = 0 := by
    rw [dot_normalize_right, dot_self_cross_left, mul_zero]
  have h12 : dot (normalize (cross n E)) (normalize (cross n (normalize (cross n E)))) = 0 := by
    rw [dot_normalize_right, dot_self_cross_right, mul_zero]
  have hup : Real.sqrt u1 * Real.sqrt u1 = u1 := Real.mul_self_sqrt h0
  have hover : Real.sqrt (1 - Real.sqrt u1 * Real.sqrt u1) *
      Real.sqrt (1 - Real.sqrt u1 * Real.sqrt u1) = 1 - u1 := by
    rw [hup]
    exact Real.mul_self_sqrt (by linarith)
  refine ⟨?_, ?_⟩
  · rw [dot_basis_self n _ _ _ _ _ hnn h11 h22 hn1 hn2 h12]
    have hsc := Real.sin_sq_add_cos_sq a
    linear_combination hup + (Real.cos a ^ 2 + Real.sin a ^ 2) * hover + (1 - u1) * hsc
  · exact dot_basis_normal n _ _ _ _ _ hnn hn1 hn2

/-- Unfolding equation for `calculateRandomDirectionInHemisphere`. -/
theorem calculateRandomDirectionInHemisphere_fst (normal : Vec3) (g : Rng) :
    (calculateRandomDirectionInHemisphere normal g).1 =
      vadd (vadd (smul (Real.sqrt (g.stream g.pos)) normal)
        (smul (Real.cos (g.stream (g.pos + 1) * (2 * Real.pi)) *
            Real.sqrt (1 - Real.sqrt (g.stream g.pos) * Real.sqrt (g.stream g.pos)))
          (normalize (cross normal
            (if |normal.x| < Real.sqrt (1 / 3) then ⟨1, 0, 0⟩
             else if |normal.y| < Real.sqrt (1 / 3) then ⟨0, 1, 0⟩
             else ⟨0, 0, 1⟩)))))
        (smul (Real.sin (g.stream (g.pos + 1) * (2 * Real.pi)) *
            Real.sqrt (1 - Real.sqrt (g.stream g.pos) * Real.sqrt (g.stream g.pos)))
          (normalize (cross normal (normalize (cross normal
            (if |normal.x| < Real.sqrt (1 / 3) then ⟨1, 0, 0⟩
             else if |normal.y| < Real.sqrt (1 / 3) then ⟨0, 1, 0⟩
             else ⟨0, 0, 1⟩)))))) := by
  simp only [calculateRandomDirectionInHemisphere, Rng.next]

/-- C7: for every unit-length normal `n` and samples `u1, u2 ∈ [0,1)` the
hemisphere sampler returns a unit-length direction `d` with
`dot d n ≥ 0`; `d` is built as `cosθ•n + (cos φ · sinθ)•t1 +
(sin φ · sinθ)•t2` with `cosθ = √u1`, `sinθ = √(1-cosθ²)`, `φ = 2π·u2`
over the orthonormal basis `{n, t1, t2}` the code constructs. -/
theorem hemisphere_sample_unit_nonneg (n : Vec3) (g : Rng)
    (hnn : dot n n = 1) (h0 : 0 ≤ g.stream g.pos) (h1 : g.stream g.pos < 1) :
    dot (calculateRandomDirectionInHemisphere n g).1
      (calculateRandomDirectionInHemisphere n g).1 = 1 ∧
    0 ≤ dot (calculateRandomDirectionInHemisphere n g).1 n := by
  rw [calculateRandomDirectionInHemisphere_fst]
  have h3 : Real.sqrt (1 / 3) * Real.sqrt (1 / 3) = 1 / 3 :=
    Real.mul_self_sqrt (by norm_num)
  by_cases hx : |n.x| < Real.sqrt (1 / 3)
  · rw [if_pos hx]
    have hx2 : n.x * n.x < 1 := by
      nlinarith [mul_self_lt_mul_self (abs_nonneg n.x) hx, abs_mul_abs_self n.x]
    obtain ⟨hd, hp⟩ := hemisphere_core n ⟨1, 0, 0⟩ (g.stream g.pos)
      (g.stream (g.pos + 1) * (2 * Real.pi)) hnn (cross_axis_pos_x n hnn hx2) h0 h1.le
    refine ⟨hd, ?_⟩
    rw [hp]
    exact Real.sqrt_nonneg _
  · by_cases hy : |n.y| < Real.sqrt (1 / 3)
    · rw [if_neg hx, if_pos hy]
      have hy2 : n.y * n.y < 1 := by
        nlinarith [mul_self_lt_mul_self (abs_nonneg n.y) hy, abs_mul_abs_self n.y]
      obtain ⟨hd, hp⟩ := hemisphere_core n ⟨0, 1, 0⟩ (g.stream g.pos)
        (g.stream (g.pos + 1) * (2 * Real.pi)) hnn (cross_axis_pos_y n hnn hy2) h0 h1.le
      refine ⟨hd, ?_⟩
      rw [hp]
      exact Real.sqrt_nonneg _
    · rw [if_neg hx, if_neg hy]
      have hx2 : 1 / 3 ≤ n.x * n.x := by
        nlinarith [mul_self_le_mul_self (Real.sqrt_nonneg (1 / 3 : ℝ)) (not_lt.mp hx),
          abs_mul_abs_self n.x]
      have hnn' : n.x * n.x + n.y * n.y + n.z * n.z = 1 := by
        have h := hnn
        simp only [dot] at h
        exact h
      have hz2 : n.z * n.z < 1 := by nlinarith [sq_nonneg n.y]
      obtain ⟨hd, hp⟩ := hemisphere_core n ⟨0, 0, 1⟩ (g.stream g.pos)
        (g.stream (g.pos + 1) * (2 * Real.pi)) hnn (cross_axis_pos_z n hnn hz2) h0 h1.le
      refine ⟨hd, ?_⟩
      rw [hp]
      exact Real.sqrt_nonneg _

/-- Witness for C7 at `n = (0,1,0)` and the all-zeros sample stream. -/
theorem hemisphere_sample_unit_nonneg_witness :
    dot (⟨0, 1, 0⟩ : Vec3) ⟨0, 1, 0⟩ = 1 ∧
    (0 : ℝ) ≤ Rng.stream ⟨fun _ => 0, 0⟩ (Rng.pos ⟨fun _ => 0, 0⟩) ∧
    Rng.stream ⟨fun _ => 0, 0⟩ (Rng.pos ⟨fun _ => 0, 0⟩) < 1 ∧
    (dot (calculateRandomDirectionInHemisphere ⟨0, 1, 0⟩ ⟨fun _ => 0, 0⟩).1
      (calculateRandomDirectionInHemisphere ⟨0, 1, 0⟩ ⟨fun _ => 0, 0⟩).1 = 1 ∧
    0 ≤ dot (calculateRandomDirectionInHemisphere ⟨0, 1, 0⟩ ⟨fun _ => 0, 0⟩).1 ⟨0, 1, 0⟩) :=
  ⟨by norm_num [dot], by norm_num, by norm_num,
    hemisphere_sample_unit_nonneg ⟨0, 1, 0⟩ ⟨fun _ => 0, 0⟩ (by norm_num [dot])
      (by norm_num) (by norm_num)⟩

/-! ## Branch unfolding lemmas for `scatterRay` -/

/-- When the first draw is at most `hasReflective`, `scatterRay` takes the
specular branch: reflected direction, specular color, throughput
untouched, bounce budget decremented. -/
theorem scatterRay_specular (cam : Camera) (g : Rng) (ps : PathSegment)
    (inter : ShadeableIntersection) (mat : Material) (lights : ℤ → ℤ)
    (lightsNum : ℤ) (geoms : ℤ → Geom) (materials : ℤ → Material)
    (h : (Rng.next g).1 ≤ mat.hasReflective) :
    scatterRay cam g ps inter mat lights lightsNum geoms materials =
      ({ ray := { origin := inter.intersectPos,
                  direction := reflect ps.ray.direction inter.surfaceNormal },
         color := mat.specular.color,
         throughput := ps.throughput,
         remainingBounces := ps.remainingBounces - 1 },
       (Rng.next (Rng.next g).2).2) := by
  simp only [scatterRay]
  rw [if_pos h]

/-- When the first draw exceeds `hasReflective`, `scatterRay` takes the
diffuse branch: hemisphere-sampled direction, base color stored,
throughput multiplied by `mat.color · |dot(incoming, normal)| / (2π)`,
bounce budget decremented. -/
theorem scatterRay_diffuse (cam : Camera) (g : Rng) (ps : PathSegment)
    (inter : ShadeableIntersection) (mat : Material) (lights : ℤ → ℤ)
    (lightsNum : ℤ) (geoms : ℤ → Geom) (materials : ℤ → Material)
    (h : mat.hasReflective < (Rng.next g).1) :
    scatterRay cam g ps inter mat lights lightsNum geoms materials =
      ({ ray := { origin := inter.intersectPos,
                  direction := (calculateRandomDirectionInHemisphere inter.surfaceNormal
                    (Rng.next (Rng.next g).2).2).1 },
         color := mat.color,
         throughput := vmul ps.throughput
           (smul (|dot ps.ray.direction inter.surfaceNormal| / (2 * Real.pi)) mat.color),
         remainingBounces := ps.remainingBounces - 1 },
       (calculateRandomDirectionInHemisphere inter.surfaceNormal
         (Rng.next (Rng.next g).2).2).2) := by
  simp only [scatterRay]
  rw [if_neg (not_le.mpr h)]

/-! ## Concrete fixtures for witnesses and counterexamples -/

/-- Camera at the origin. -/
noncomputable def cam0 : Camera := ⟨⟨0, 0, 0⟩⟩

/-- Sample stream that always draws 0. -/
noncomputable def gZero : Rng := ⟨fun _ => 0, 0⟩

/-- Sample stream drawing 1/2 first (forcing the diffuse branch for a
non-reflective material) and 0 afterwards. -/
noncomputable def gDiff : Rng := ⟨fun i => if i = 0 then 1 / 2 else 0, 0⟩

/-- A path heading straight down with throughput (1,1,1) and budget 5. -/
noncomputable def ps0 : PathSegment := ⟨⟨⟨0, 0, 0⟩, ⟨0, -1, 0⟩⟩, ⟨0, 0, 0⟩, ⟨1, 1, 1⟩, 5⟩

/-- Intersection at the origin with upward normal. -/
noncomputable def inter0 : ShadeableIntersection := ⟨⟨0, 1, 0⟩, ⟨0, 0, 0⟩⟩

/-- Intersection at (1,0,0) with upward normal. -/
noncomputable def interSpec : ShadeableIntersection := ⟨⟨0, 1, 0⟩, ⟨1, 0, 0⟩⟩

/-- White diffuse material (`hasReflective = 0`). -/
noncomputable def mat0 : Material := ⟨⟨1, 1, 1⟩, ⟨1, ⟨1, 1, 1⟩⟩, 0⟩

/-- Perfect mirror material (`hasReflective = 1`). -/
noncomputable def matRefl : Material := ⟨⟨1, 1, 1⟩, ⟨1, ⟨1, 1, 1⟩⟩, 1⟩

/-- A light source directly above the origin. -/
noncomputable def geom0 : Geom := ⟨⟨0, 2, 0⟩⟩

/-- Light-index array: every slot holds geometry index 0. -/
noncomputable def lights0 : ℤ → ℤ := fun _ => 0

/-- Geometry array: every slot holds the light above the origin. -/
noncomputable def geoms0 : ℤ → Geom := fun _ => geom0

/-- Materials array: every slot holds the white diffuse material. -/
noncomputable def mats0 : ℤ → Material := fun _ => mat0

/-! ## Claim theorems -/

/-- C4: the specular branch is taken exactly when the drawn branch sample
satisfies `u_branch ≤ hasReflective` (new direction is the reflection),
the diffuse branch otherwise (new direction is the hemisphere sample);
when `hasReflective = 1` and the draw is below 1 the specular branch is
always taken and the new direction is `reflect(incoming, normal)`. -/
theorem scatter_branch_selection (cam : Camera) (g : Rng) (ps : PathSegment)
    (inter : ShadeableIntersection) (mat : Material) (lights : ℤ → ℤ)
    (lightsNum : ℤ) (geoms : ℤ → Geom) (materials : ℤ → Material) :
    ((Rng.next g).1 ≤ mat.hasReflective →
      (scatterRay cam g ps inter mat lights lightsNum geoms materials).1.ray.direction =
        reflect ps.ray.direction inter.surfaceNormal) ∧
    (mat.hasReflective < (Rng.next g).1 →
      (scatterRay cam g ps inter mat lights lightsNum geoms materials).1.ray.direction =
        (calculateRandomDirectionInHemisphere inter.surfaceNormal
          (Rng.next (Rng.next g).2).2).1) ∧
    (mat.hasReflective = 1 → (Rng.next g).1 < 1 →
      (scatterRay cam g ps inter mat lights lightsNum geoms materials).1.ray.direction =
        reflect ps.ray.direction inter.surfaceNormal) := by
  refine ⟨fun h => ?_, fun h => ?_, fun h1 h2 => ?_⟩
  · rw [scatterRay_specular cam g ps inter mat lights lightsNum geoms materials h]
  · rw [scatterRay_diffuse cam g ps inter mat lights lightsNum geoms materials h]
  · rw [scatterRay_specular cam g ps inter mat lights lightsNum geoms materials
      (by rw [h1]; exact h2.le)]

/-- Witness for C4: a mirror material with draw 0 takes the specular
branch and reflects the incoming direction. -/
theorem scatter_branch_selection_witness :
    (Rng.next gZero).1 ≤ matRefl.hasReflective ∧
    (scatterRay cam0 gZero ps0 inter0 matRefl lights0 1 geoms0 mats0).1.ray.direction =
      reflect ps0.ray.direction inter0.surfaceNormal :=
  ⟨by norm_num [Rng.next, gZero, matRefl],
    (scatter_branch_selection cam0 gZero ps0 inter0 matRefl lights0 1 geoms0 mats0).1
      (by norm_num [Rng.next, gZero, matRefl])⟩

/-- C6: every call to `scatterRay` decrements the bounce budget by
exactly 1, stores the branch's computed color as the path's color, and
sets the ray origin to the intersection position; the path record
(modelled from the spec's `PathState`: ray, color, throughput,
remaining bounces) has no further fields to modify. -/
theorem scatter_frame_effect (cam : Camera) (g : Rng) (ps : PathSegment)
    (inter : ShadeableIntersection) (mat : Material) (lights : ℤ → ℤ)
    (lightsNum : ℤ) (geoms : ℤ → Geom) (materials : ℤ → Material) :
    (scatterRay cam g ps inter mat lights lightsNum geoms materials).1.remainingBounces =
      ps.remainingBounces - 1 ∧
    (scatterRay cam g ps inter mat lights lightsNum geoms materials).1.ray.origin =
      inter.intersectPos ∧
    (scatterRay cam g ps inter mat lights lightsNum geoms materials).1.color =
      (if (Rng.next g).1 ≤ mat.hasReflective then mat.specular.color else mat.color) := by
  by_cases h : (Rng.next g).1 ≤ mat.hasReflective
  · rw [scatterRay_specular cam g ps inter mat lights lightsNum geoms materials h, if_pos h]
    exact ⟨rfl, rfl, rfl⟩
  · rw [scatterRay_diffuse cam g ps inter mat lights lightsNum geoms materials (not_le.mp h),
      if_neg h]
    exact ⟨rfl, rfl, rfl⟩

/-- C8: with `lightCount > 0` and `u ∈ [0,1)`, the light-selection step
equals `⌊u · lightCount⌋` (the C cast truncates a non-negative value),
which lies in `[0, lightCount-1]`, a valid read index. -/
theorem selectLight_in_bounds (lightsNum : ℤ) (u : ℝ)
    (hn : 0 < lightsNum) (h0 : 0 ≤ u) (h1 : u < 1) :
    selectLightIndex u lightsNum = ⌊u * (lightsNum : ℝ)⌋ ∧
    0 ≤ selectLightIndex u lightsNum ∧
    selectLightIndex u lightsNum ≤ lightsNum - 1 ∧
    (selectLightIndex u lightsNum).toNat < lightsNum.toNat := by
  have hcast : (0 : ℝ) < (lightsNum : ℝ) := by exact_mod_cast hn
  have hprod : 0 ≤ u * (lightsNum : ℝ) := mul_nonneg h0 hcast.le
  have heq : selectLightIndex u lightsNum = ⌊u * (lightsNum : ℝ)⌋ := by
    simp only [selectLightIndex, truncToInt, if_pos hprod]
  have hge : 0 ≤ ⌊u * (lightsNum : ℝ)⌋ := Int.floor_nonneg.mpr hprod
  have hlt : ⌊u * (lightsNum : ℝ)⌋ < lightsNum := by
    rw [Int.floor_lt]
    calc u * (lightsNum : ℝ) < 1 * (lightsNum : ℝ) :=
          mul_lt_mul_of_pos_right h1 hcast
      _ = (lightsNum : ℝ) := one_mul _
  refine ⟨heq, ?_, ?_, ?_⟩
  · rw [heq]; exact hge
  · rw [heq]; omega
  · rw [heq]; omega

/-- Witness for C8 at `lightCount = 3`, `u = 1/2`: index 1. -/
theorem selectLight_in_bounds_witness :
    (0 : ℤ) < 3 ∧ (0 : ℝ) ≤ 1 / 2 ∧ (1 / 2 : ℝ) < 1 ∧
    (selectLightIndex (1 / 2) 3 = ⌊(1 / 2 : ℝ) * ((3 : ℤ) : ℝ)⌋ ∧
      0 ≤ selectLightIndex (1 / 2) 3 ∧
      selectLightIndex (1 / 2) 3 ≤ 3 - 1 ∧
      (selectLightIndex (1 / 2) 3).toNat < (3 : ℤ).toNat) :=
  ⟨by norm_num, by norm_num, by norm_num,
    selectLight_in_bounds 3 (1 / 2) (by norm_num) (by norm_num) (by norm_num)⟩

/-- C9: `scatterRay` is deterministic — two runs on identical inputs with
an identical sample stream produce identical output path state and
generator. -/
theorem scatter_deterministic (cam cam2 : Camera) (g g2 : Rng)
    (ps ps2 : PathSegment) (inter inter2 : ShadeableIntersection)
    (mat mat2 : Material) (lights lights2 : ℤ → ℤ) (lightsNum lightsNum2 : ℤ)
    (geoms geoms2 : ℤ → Geom) (materials materials2 : ℤ → Material)
    (hcam : cam = cam2) (hg : g = g2) (hps : ps = ps2) (hinter : inter = inter2)
    (hmat : mat = mat2) (hl : lights = lights2) (hn : lightsNum = lightsNum2)
    (hge : geoms = geoms2) (hm : materials = materials2) :
    scatterRay cam g ps inter mat lights lightsNum geoms materials =
      scatterRay cam2 g2 ps2 inter2 mat2 lights2 lightsNum2 geoms2 materials2 := by
  subst hcam hg hps hinter hmat hl hn hge hm
  rfl

/-- Witness for C9 at a concrete input. -/
theorem scatter_deterministic_witness :
    cam0 = cam0 ∧ gZero = gZero ∧ ps0 = ps0 ∧ inter0 = inter0 ∧ mat0 = mat0 ∧
    lights0 = lights0 ∧ (1 : ℤ) = 1 ∧ geoms0 = geoms0 ∧ mats0 = mats0 ∧
    scatterRay cam0 gZero ps0 inter0 mat0 lights0 1 geoms0 mats0 =
      scatterRay cam0 gZero ps0 inter0 mat0 lights0 1 geoms0 mats0 :=
  ⟨rfl, rfl, rfl, rfl, rfl, rfl, rfl, rfl, rfl,
    scatter_deterministic cam0 cam0 gZero gZero ps0 ps0 inter0 inter0 mat0 mat0
      lights0 lights0 1 1 geoms0 geoms0 mats0 mats0
      rfl rfl rfl rfl rfl rfl rfl rfl rfl⟩

/-- C10: the output of `scatterRay` is independent of the `Camera`
argument and of the contents of the materials array — neither is read. -/
theorem scatter_ignores_cam_and_materials (cam cam2 : Camera) (g : Rng)
    (ps : PathSegment) (inter : ShadeableIntersection) (mat : Material)
    (lights : ℤ → ℤ) (lightsNum : ℤ) (geoms : ℤ → Geom)
    (materials materials2 : ℤ → Material) :
    scatterRay cam g ps inter mat lights lightsNum geoms materials =
      scatterRay cam2 g ps inter mat lights lightsNum geoms materials2 := rfl

/-- C1 (amended): in the diffuse branch, the throughput is multiplied
componentwise by `mat.color · |dot(incomingDirection, normal)| / (2π)`,
where `incomingDirection` is the ray direction before the new hemisphere
direction is sampled: the update precedes the direction resampling and
the divisor is `2π`, not `π`. -/
theorem scatter_diffuse_throughput (cam : Camera) (g : Rng) (ps : PathSegment)
    (inter : ShadeableIntersection) (mat : Material) (lights : ℤ → ℤ)
    (lightsNum : ℤ) (geoms : ℤ → Geom) (materials : ℤ → Material)
    (h : mat.hasReflective < (Rng.next g).1) :
    (scatterRay cam g ps inter mat lights lightsNum geoms materials).1.throughput =
      vmul ps.throughput
        (smul (|dot ps.ray.direction inter.surfaceNormal| / (2 * Real.pi)) mat.color) := by
  rw [scatterRay_diffuse cam g ps inter mat lights lightsNum geoms materials h]

/-- Witness for the amended C1 at a concrete diffuse call. -/
theorem scatter_diffuse_throughput_witness :
    mat0.hasReflective < (Rng.next gDiff).1 ∧
    (scatterRay cam0 gDiff ps0 inter0 mat0 lights0 1 geoms0 mats0).1.throughput =
      vmul ps0.throughput
        (smul (|dot ps0.ray.direction inter0.surfaceNormal| / (2 * Real.pi)) mat0.color) :=
  ⟨by norm_num [mat0, Rng.next, gDiff],
    scatter_diffuse_throughput cam0 gDiff ps0 inter0 mat0 lights0 1 geoms0 mats0
      (by norm_num [mat0, Rng.next, gDiff])⟩

/-- C2 (amended): in the diffuse branch the stored bounce color equals
`material.color` unscaled; the value
`throughput · color · lux / (1 - hasReflective)` is computed but
immediately overwritten. -/
theorem scatter_diffuse_color (cam : Camera) (g : Rng) (ps : PathSegment)
    (inter : ShadeableIntersection) (mat : Material) (lights : ℤ → ℤ)
    (lightsNum : ℤ) (geoms : ℤ → Geom) (materials : ℤ → Material)
    (h : mat.hasReflective < (Rng.next g).1) :
    (scatterRay cam g ps inter mat lights lightsNum geoms materials).1.color = mat.color := by
  rw [scatterRay_diffuse cam g ps inter mat lights lightsNum geoms materials h]

/-- Witness for the amended C2 at a concrete diffuse call. -/
theorem scatter_diffuse_color_witness :
    mat0.hasReflective < (Rng.next gDiff).1 ∧
    (scatterRay cam0 gDiff ps0 inter0 mat0 lights0 1 geoms0 mats0).1.color = mat0.color :=
  ⟨by norm_num [mat0, Rng.next, gDiff],
    scatter_diffuse_color cam0 gDiff ps0 inter0 mat0 lights0 1 geoms0 mats0
      (by norm_num [mat0, Rng.next, gDiff])⟩

/-- C3 (amended): in the specular branch the stored bounce color equals
`material.specular.color`; the highlight expression
`specularColor · hasReflective · dot(r,v)^exponent / hasReflective` is
computed but immediately overwritten. -/
theorem scatter_specular_color (cam : Camera) (g : Rng) (ps : PathSegment)
    (inter : ShadeableIntersection) (mat : Material) (lights : ℤ → ℤ)
    (lightsNum : ℤ) (geoms : ℤ → Geom) (materials : ℤ → Material)
    (h : (Rng.next g).1 ≤ mat.hasReflective) :
    (scatterRay cam g ps inter mat lights lightsNum geoms materials).1.color =
      mat.specular.color := by
  rw [scatterRay_specular cam g ps inter mat lights lightsNum geoms materials h]

/-- Witness for the amended C3 at a concrete specular call. -/
theorem scatter_specular_color_witness :
    (Rng.next gZero).1 ≤ matRefl.hasReflective ∧
    (scatterRay cam0 gZero ps0 interSpec matRefl lights0 1 geoms0 mats0).1.color =
      matRefl.specular.color :=
  ⟨by norm_num [matRefl, Rng.next, gZero],
    scatter_specular_color cam0 gZero ps0 interSpec matRefl lights0 1 geoms0 mats0
      (by norm_num [matRefl, Rng.next, gZero])⟩

/-- C5 (amended): when `hasReflective = 0`, a call with branch draw
`u > 0` takes the diffuse branch (stored color is the unscaled base
color, new direction is the hemisphere sample), while a call with
`u ≤ 0` — in particular the drawable value `u = 0` — takes the specular
branch because the test is `u ≤ hasReflective`. -/
theorem scatter_zero_reflective (cam : Camera) (g : Rng) (ps : PathSegment)
    (inter : ShadeableIntersection) (mat : Material) (lights : ℤ → ℤ)
    (lightsNum : ℤ) (geoms : ℤ → Geom) (materials : ℤ → Material)
    (hr : mat.hasReflective = 0) :
    (0 < (Rng.next g).1 →
      (scatterRay cam g ps inter mat lights lightsNum geoms materials).1.color = mat.color ∧
      (scatterRay cam g ps inter mat lights lightsNum geoms materials).1.ray.direction =
        (calculateRandomDirectionInHemisphere inter.surfaceNormal
          (Rng.next (Rng.next g).2).2).1) ∧
    ((Rng.next g).1 ≤ 0 →
      (scatterRay cam g ps inter mat lights lightsNum geoms materials).1.ray.direction =
        reflect ps.ray.direction inter.surfaceNormal) := by
  constructor
  · intro hu
    rw [scatterRay_diffuse cam g ps inter mat lights lightsNum geoms materials
      (by rw [hr]; exact hu)]
    exact ⟨rfl, rfl⟩
  · intro hu
    rw [scatterRay_specular cam g ps inter mat lights lightsNum geoms materials
      (by rw [hr]; exact hu)]

/-- Witness for the amended C5 at a concrete call with draw 1/2. -/
theorem scatter_zero_reflective_witness :
    mat0.hasReflective = 0 ∧ 0 < (Rng.next gDiff).1 ∧
    ((scatterRay cam0 gDiff ps0 inter0 mat0 lights0 1 geoms0 mats0).1.color = mat0.color ∧
      (scatterRay cam0 gDiff ps0 inter0 mat0 lights0 1 geoms0 mats0).1.ray.direction =
        (calculateRandomDirectionInHemisphere inter0.surfaceNormal
          (Rng.next (Rng.next gDiff).2).2).1) :=
  ⟨by norm_num [mat0], by norm_num [Rng.next, gDiff],
    (scatter_zero_reflective cam0 gDiff ps0 inter0 mat0 lights0 1 geoms0 mats0
      (by norm_num [mat0])).1 (by norm_num [Rng.next, gDiff])⟩

/-- Counterexample to C2 as stated: at a diffuse call with
`hasReflective = 0`, unit throughput and a light directly above
(`lux = 1.2`), the stored color is `(1,1,1)`, not the claimed
`baseColor · lux / (1 - hasReflective) = (1.2, 1.2, 1.2)`. -/
theorem diffuse_color_claim_counterexample :
    ¬ ((scatterRay cam0 gDiff ps0 inter0 mat0 lights0 1 geoms0 mats0).1.color =
      smul ((max (dot inter0.surfaceNormal
          (normalize (vsub (geoms0 (lights0 0)).translation inter0.intersectPos))) 0 + 0.2) /
        (1 - mat0.hasReflective)) mat0.color) := by
  intro h
  rw [scatterRay_diffuse cam0 gDiff ps0 inter0 mat0 lights0 1 geoms0 mats0
    (by norm_num [mat0, Rng.next, gDiff])] at h
  have hs4 : Real.sqrt 4 = 2 := by
    rw [show (4 : ℝ) = 2 ^ 2 by norm_num]
    exact Real.sqrt_sq (by norm_num)
  have hx := congrArg Vec3.x h
  simp only [mat0, inter0, geoms0, lights0, geom0, normalize, vlen, vsub, dot, smul] at hx
  norm_num [hs4] at hx

/-- Counterexample to C3 as stated: at a specular call on a mirror
material where `dot(reflected, viewDirection) = 0` and exponent 1, the
claimed highlight value is `(0,0,0)` but the stored color is the
specular color `(1,1,1)`. -/
theorem specular_color_claim_counterexample :
    ¬ ((scatterRay cam0 gZero ps0 interSpec matRefl lights0 1 geoms0 mats0).1.color =
      smul (matRefl.hasReflective *
          max (dot (reflect ps0.ray.direction interSpec.surfaceNormal)
            (normalize interSpec.intersectPos)) 0 ^ matRefl.specular.exponent /
          matRefl.hasReflective)
        matRefl.specular.color) := by
  intro h
  rw [scatterRay_specular cam0 gZero ps0 interSpec matRefl lights0 1 geoms0 mats0
    (by norm_num [matRefl, Rng.next, gZero])] at h
  have hx := congrArg Vec3.x h
  simp only [matRefl, interSpec, ps0, reflect, normalize, vlen, vsub, dot, smul] at hx
  norm_num [Real.sqrt_one] at hx

/-- Counterexample to C5 as stated: with `hasReflective = 0`, normal
`(0,1,0)`, throughput `(1,1,1)` and a single light directly above, a
diffuse call (draw 1/2) stores `(1,1,1)`, not `1.2 ·` base color; and at
draw 0 the specular branch is taken (the new direction is the
reflection and the throughput is left untouched), not the diffuse one. -/
theorem zero_reflective_claim_counterexample :
    ¬ ((scatterRay cam0 gDiff ps0 inter0 mat0 lights0 1 geoms0 mats0).1.color =
        smul 1.2 mat0.color) ∧
    (scatterRay cam0 gZero ps0 inter0 mat0 lights0 1 geoms0 mats0).1.ray.direction =
      reflect ps0.ray.direction inter0.surfaceNormal ∧
    (scatterRay cam0 gZero ps0 inter0 mat0 lights0 1 geoms0 mats0).1.throughput =
      ps0.throughput := by
  refine ⟨?_, ?_, ?_⟩
  · intro h
    rw [scatterRay_diffuse cam0 gDiff ps0 inter0 mat0 lights0 1 geoms0 mats0
      (by norm_num [mat0, Rng.next, gDiff])] at h
    have hx := congrArg Vec3.x h
    simp only [mat0, smul] at hx
    norm_num at hx
  · rw [scatterRay_specular cam0 gZero ps0 inter0 mat0 lights0 1 geoms0 mats0
      (by norm_num [mat0, Rng.next, gZero])]
  · rw [scatterRay_specular cam0 gZero ps0 inter0 mat0 lights0 1 geoms0 mats0
      (by norm_num [mat0, Rng.next, gZero])]

/-- Counterexample to C1 as stated: at a concrete diffuse call the new
throughput is `(1/(2π),...)` — the old direction's cosine over `2π` —
while the claimed update `baseColor · |dot(newDirection, normal)| / π`
evaluates to `(0,0,0)`, the freshly sampled direction being orthogonal
to the normal there. -/
theorem throughput_update_claim_counterexample :
    ¬ ((scatterRay cam0 gDiff ps0 inter0 mat0 lights0 1 geoms0 mats0).1.throughput =
      vmul ps0.throughput
        (smul (|dot (scatterRay cam0 gDiff ps0 inter0 mat0 lights0 1 geoms0
            mats0).1.ray.direction inter0.surfaceNormal| / Real.pi) mat0.color)) := by
  have hbr : mat0.hasReflective < (Rng.next gDiff).1 := by norm_num [mat0, Rng.next, gDiff]
  have hdot : dot (scatterRay cam0 gDiff ps0 inter0 mat0 lights0 1 geoms0
      mats0).1.ray.direction inter0.surfaceNormal = 0 := by
    rw [scatterRay_diffuse cam0 gDiff ps0 inter0 mat0 lights0 1 geoms0 mats0 hbr]
    show dot (calculateRandomDirectionInHemisphere inter0.surfaceNormal
      (Rng.next (Rng.next gDiff).2).2).1 inter0.surfaceNormal = 0
    rw [calculateRandomDirectionInHemisphere_fst]
    rw [dot_vadd_left, dot_vadd_left, dot_smul_left, dot_smul_left, dot_smul_left,
      dot_normalize_left, dot_normalize_left,
      dot_comm (cross _ _) inter0.surfaceNormal, dot_self_cross_left,
      dot_comm (cross _ _) inter0.surfaceNormal, dot_self_cross_left]
    norm_num [gDiff, Rng.next]
  intro h
  have hx := congrArg Vec3.x h
  rw [hdot] at hx
  rw [scatterRay_diffuse cam0 gDiff ps0 inter0 mat0 lights0 1 geoms0 mats0 hbr] at hx
  simp only [ps0, inter0, mat0, vmul, smul, dot] at hx
  norm_num [div_eq_zero_iff, mul_eq_zero, Real.pi_ne_zero] at hx

end PathTracer
